import Mathlib

/-!
Verification of the FocusTasks task-store application (src/app.js).

The store keeps a private list of tasks; `add`, `toggle`, `remove` and
`list` are its public operations.  Tasks are records with a string `id`,
a string `title` and a boolean `done` flag.  The definitions below are a
shallow embedding of the JavaScript source: JavaScript exceptions are
modelled with `Except`, the absence of an object field with `Option`,
and the localStorage backend as the optional string stored under the
store's single key.
-/

set_option autoImplicit false

namespace FocusTasks

/-- A task object as stored in the private `tasks` array. -/
structure Task where
  id : String
  title : String
  done : Bool
deriving DecidableEq, Repr

/-- The argument object of `add` (src/app.js:48): a caller-supplied `id`,
a `title` that may be absent, and an optional `done` flag. -/
structure AddInput where
  id : String
  title : Option String
  done : Option Bool
deriving DecidableEq, Repr

/-- Whitespace as recognised by JavaScript's `String.prototype.trim`:
the ASCII whitespace characters together with the no-break space.  (The
full ECMAScript set also has further Unicode space separators; the
titles this program handles make the distinction irrelevant.) -/
def isJsWs (c : Char) : Bool :=
  c = ' ' ∨ c = '\t' ∨ c = '\n' ∨ c = '\r' ∨ c = '\x0b' ∨ c = '\x0c' ∨ c = ' '

/-- `title.trim()`: drop whitespace from both ends of the string. -/
def jsTrim (s : String) : String :=
  ⟨((s.toList.dropWhile isJsWs).reverse.dropWhile isJsWs).reverse⟩

/-- `add` (src/app.js:48-64).  The guard `!task.title ||
task.title.trim().length === 0` throws when the title is absent, the
empty string, or all-whitespace; the absent and empty-string cases
coincide with the trim test because `"".trim()` is empty.  On success a
new task object with the trimmed title and `done: task.done || false`
is appended to the private array (`tasks = [...tasks, newTask]`).
Throwing is modelled as `Except.error`; the new private state is
returned on success. -/
def add (tasks : List Task) (task : AddInput) : Except String (List Task) :=
  match task.title with
  | none => Except.error "Task title cannot be empty"
  | some s =>
    if jsTrim s = "" then Except.error "Task title cannot be empty"
    else Except.ok (tasks ++ [⟨task.id, jsTrim s, task.done.getD false⟩])

/-- The arrow function mapped by `toggle` (src/app.js:69-73): a task
whose `id` matches becomes a spread copy with `done` negated, any other
task is passed through. -/
def toggleTask (i : String) (task : Task) : Task :=
  if task.id = i then { task with done := !task.done } else task

/-- `toggle` (src/app.js:67-76): `tasks.map` of the transform above. -/
def toggle (tasks : List Task) (i : String) : List Task :=
  tasks.map (toggleTask i)

/-- `remove` (src/app.js:79-84): `tasks.filter(task => task.id !== id)`. -/
def remove (tasks : List Task) (i : String) : List Task :=
  tasks.filter fun task => task.id ≠ i

/-- One public mutation of the store. -/
inductive Op where
  | add (inp : AddInput)
  | toggle (i : String)
  | remove (i : String)
deriving DecidableEq, Repr

/-- The effect of one public operation on the private `tasks` array.  An
`add` that throws leaves the array untouched (the throw happens before
the assignment at src/app.js:61). -/
def applyOp (tasks : List Task) : Op → List Task
  | Op.add inp =>
    match add tasks inp with
    | Except.ok ts => ts
    | Except.error _ => tasks
  | Op.toggle i => toggle tasks i
  | Op.remove i => remove tasks i

/-- A sequence of public operations applied in order. -/
def applyOps (tasks : List Task) (ops : List Op) : List Task :=
  ops.foldl applyOp tasks

/-- An operation is id-fresh for a state when, if it is an `add`, the
id it supplies does not occur in the state.  (The controller generates
such ids at src/app.js:248; the store itself never checks this.) -/
def addFresh (tasks : List Task) : Op → Bool
  | Op.add inp => tasks.all fun t => t.id ≠ inp.id
  | _ => true

/-!
### The persistence backend

`persist` (src/app.js:37-43) writes `JSON.stringify(tasks)` under the
store's key; the inner `init` (src/app.js:24-34) reads the key and, when
the value is truthy, assigns `JSON.parse(stored)` to the private array,
falling back to `[]` when parsing throws.  The backend is modelled as
the optional string stored under the key, and the platform
`JSON.stringify` / `JSON.parse` pair is modelled for task-list values:
the serializer below produces exactly the compact form `JSON.stringify`
emits for an array of `id`/`title`/`done` records, and the parser
accepts exactly that form (any other string, in particular any string
that is not a JSON task array, is rejected — the model's stand-in for a
`JSON.parse` failure). -/

/-- JSON string escaping for one character. -/
def escapeChar (c : Char) : String :=
  if c = '"' then "\\\""
  else if c = '\\' then "\\\\"
  else if c = '\n' then "\\n"
  else if c = '\t' then "\\t"
  else if c = '\r' then "\\r"
  else String.singleton c

/-- A JSON string literal: quote and escape. -/
def quoteStr (s : String) : String :=
  "\"" ++ String.join (s.toList.map escapeChar) ++ "\""

/-- `JSON.stringify` of one task object (keys in insertion order). -/
def taskToJson (t : Task) : String :=
  "\x7b\"id\":" ++ quoteStr t.id ++ ",\"title\":" ++ quoteStr t.title ++
    ",\"done\":" ++ (if t.done then "true" else "false") ++ "\x7d"

/-- `JSON.stringify` of the whole task array. -/
def stringifyTasks (l : List Task) : String :=
  "[" ++ String.intercalate "," (l.map taskToJson) ++ "]"

/-- Parse the body of a JSON string literal (opening quote already
consumed), undoing `escapeChar`; fuel-driven recursion. -/
def parseStrBody : Nat → List Char → String → Option (String × List Char)
  | 0, _, _ => none
  | _ + 1, [], _ => none
  | fuel + 1, c :: rest, acc =>
    if c = '"' then some (acc, rest)
    else if c = '\\' then
      match rest with
      | [] => none
      | d :: rest2 =>
        if d = '"' then parseStrBody fuel rest2 (acc.push '"')
        else if d = '\\' then parseStrBody fuel rest2 (acc.push '\\')
        else if d = 'n' then parseStrBody fuel rest2 (acc.push '\n')
        else if d = 't' then parseStrBody fuel rest2 (acc.push '\t')
        else if d = 'r' then parseStrBody fuel rest2 (acc.push '\r')
        else none
    else parseStrBody fuel rest (acc.push c)

/-- Consume an expected literal character sequence. -/
def expectLit : List Char → List Char → Option (List Char)
  | [], cs => some cs
  | _ :: _, [] => none
  | l :: ls, c :: cs => if c = l then expectLit ls cs else none

/-- Consume an expected literal string. -/
def parseLit (lit : String) (cs : List Char) : Option (List Char) :=
  expectLit lit.toList cs

/-- Parse a quoted JSON string literal. -/
def parseQuoted (cs : List Char) : Option (String × List Char) :=
  match cs with
  | c :: rest => if c = '"' then parseStrBody (rest.length + 1) rest "" else none
  | [] => none

/-- Parse a JSON boolean literal. -/
def parseBoolTok (cs : List Char) : Option (Bool × List Char) :=
  match parseLit "true" cs with
  | some rest => some (true, rest)
  | none =>
    match parseLit "false" cs with
    | some rest => some (false, rest)
    | none => none

/-- Parse one serialized task object. -/
def parseTaskObj (cs : List Char) : Option (Task × List Char) :=
  match parseLit "\x7b\"id\":" cs with
  | none => none
  | some cs1 =>
    match parseQuoted cs1 with
    | none => none
    | some (idv, cs2) =>
      match parseLit ",\"title\":" cs2 with
      | none => none
      | some cs3 =>
        match parseQuoted cs3 with
        | none => none
        | some (titlev, cs4) =>
          match parseLit ",\"done\":" cs4 with
          | none => none
          | some cs5 =>
            match parseBoolTok cs5 with
            | none => none
            | some (d, cs6) =>
              match cs6 with
              | c :: cs7 => if c = '\x7d' then some (⟨idv, titlev, d⟩, cs7) else none
              | [] => none

/-- Parse a comma-separated nonempty sequence of task objects. -/
def parseTaskSeq : Nat → List Char → Option (List Task × List Char)
  | 0, _ => none
  | fuel + 1, cs =>
    match parseTaskObj cs with
    | none => none
    | some (t, rest) =>
      match rest with
      | ',' :: rest2 =>
        match parseTaskSeq fuel rest2 with
        | some (ts, rest3) => some (t :: ts, rest3)
        | none => none
      | _ => some ([t], rest)

/-- `JSON.parse` restricted to task arrays: accepts exactly the strings
`stringifyTasks` produces and fails on everything else. -/
def parseTasks (s : String) : Option (List Task) :=
  match s.toList with
  | '[' :: rest =>
    match rest with
    | [] => none
    | c :: rest2 =>
      if c = ']' then (if rest2 = [] then some [] else none)
      else
        match parseTaskSeq (rest.length + 1) rest with
        | some (ts, [']']) => some ts
        | _ => none
  | _ => none

/-- The inner `init` function (src/app.js:24-34) applied to the current
private array and the stored value: `if (stored)` is false for an
absent key and for the empty string, leaving the array as it is; a
parse failure is caught and the array is reset to `[]`. -/
def hydrate (tasks : List Task) (stored : Option String) : List Task :=
  match stored with
  | none => tasks
  | some s =>
    if s = "" then tasks
    else
      match parseTasks s with
      | some ts => ts
      | none => []

/-- `persist` (src/app.js:37-43): the value written under the key. -/
def persistValue (tasks : List Task) : String :=
  stringifyTasks tasks

/-- `createStore` (src/app.js:19-92) as executed: the private `tasks`
variable is initialised to `[]` and the API object is returned.  The
inner `init` function is defined at src/app.js:24 but no call to it
exists anywhere in the file — `store.list()` at src/app.js:313, despite
its comment, does not invoke it — so the stored value is never read
during (or after) construction.  Nothing on this path can throw, hence
the `Except.ok`. -/
def createStoreTasks (_stored : Option String) : Except String (List Task) :=
  Except.ok []

/-!
### Analytics (`summarize`, src/app.js:123-137)

`pct` is the number `0` when the list is empty and otherwise the string
produced by `((done / total) * 100).toFixed(1)`; the union of the two
JavaScript types is an explicit sum here.  JavaScript numbers are
IEEE-754 binary64 values, so the computation is modelled exactly:
`done / total` is rounded to 53 significand bits (round to nearest,
ties to even), that value is multiplied by 100 and rounded to 53 bits
again, and `toFixed(1)` picks the integer `n` for which `n / 10` is
closest to the resulting binary value, ties to the larger `n`
(ECMAScript's `Number.prototype.toFixed` rule).  All of this is exact
integer arithmetic on dyadic rationals; the exponent is unbounded,
which agrees with binary64 for every quotient of task counts outside
the overflow/subnormal ranges (list lengths below `2^970`). -/

/-- The value of the `pct` field: a number or a string. -/
inductive PctVal where
  | num (n : Nat)
  | str (s : String)
deriving DecidableEq, Repr

/-- The record returned by `summarize`. -/
structure Summary where
  active : Nat
  done : Nat
  pct : PctVal
deriving DecidableEq, Repr

/-- A nonnegative dyadic rational `m * 2 ^ e`, the exact value of a
binary64 double (with unbounded exponent range). -/
structure Dyadic where
  m : Nat
  e : Int
deriving DecidableEq, Repr

/-- `⌊log2 n⌋` by fuel-driven structural recursion (`n` halvings always
suffice); a kernel-evaluable equivalent of the library's `Nat.log2`. -/
def log2Fuel : Nat → Nat → Nat
  | 0, _ => 0
  | fuel + 1, n => if 2 ≤ n then log2Fuel fuel (n / 2) + 1 else 0

/-- `⌊log2 n⌋` for `n ≥ 1` (and `0` at `0`). -/
def natLog2 (n : Nat) : Nat := log2Fuel n n

/-- `⌊log2 (p / q)⌋` for `p, q ≥ 1`: the unique `f` with
`2 ^ f ≤ p / q < 2 ^ (f + 1)`.  The bit-length estimate
`log2 p - log2 q` is off by at most one, which the comparison fixes. -/
def ratExp (p q : Nat) : Int :=
  let est : Int := (natLog2 p : Int) - (natLog2 q : Int)
  if 0 ≤ est then (if q * 2 ^ est.toNat ≤ p then est else est - 1)
  else (if q ≤ p * 2 ^ (-est).toNat then est else est - 1)

/-- Round the rational `p / q` to 53 significand bits, nearest, ties to
even: the binary64 rounding of a positive real quotient. -/
def roundRat53 (p q : Nat) : Dyadic :=
  if p = 0 then ⟨0, 0⟩
  else
    let e : Int := ratExp p q - 52
    let num := if 0 ≤ e then p else p * 2 ^ (-e).toNat
    let den := if 0 ≤ e then q * 2 ^ e.toNat else q
    let m0 := num / den
    let r := num % den
    let m := if 2 * r < den then m0
             else if den < 2 * r then m0 + 1
             else if m0 % 2 = 0 then m0 else m0 + 1
    if m = 2 ^ 53 then ⟨2 ^ 52, e + 1⟩ else ⟨m, e⟩

/-- The double product `x * 100`: multiply the significand exactly and
round back to 53 bits (powers of two commute with the rounding). -/
def dyadicMul100 (x : Dyadic) : Dyadic :=
  if x.m = 0 then ⟨0, 0⟩
  else
    let r := roundRat53 (x.m * 100) 1
    ⟨r.m, r.e + x.e⟩

/-- ECMAScript `toFixed(1)` on a nonnegative double `x`: the integer
`n` for which `n / 10` is closest to `x`, ties to the larger `n`
(round-half-up of the exact value `10 * x`), printed as `d.d`. -/
def jsToFixed1 (x : Dyadic) : String :=
  let n := if 0 ≤ x.e then 10 * x.m * 2 ^ x.e.toNat
           else (2 * (10 * x.m) + 2 ^ (-x.e).toNat) / (2 * 2 ^ (-x.e).toNat)
  toString (n / 10) ++ "." ++ toString (n % 10)

/-- `((done / total) * 100).toFixed(1)` as the program computes it:
two binary64 roundings followed by `toFixed(1)`. -/
def pctDouble (d total : Nat) : String :=
  jsToFixed1 (dyadicMul100 (roundRat53 d total))

/-- The one-decimal rounding that the spec's words (and claim C8)
describe, taken on the exact rational `done * 100 / total` with the
`toFixed` tie rule: round-half-up of `done * 1000 / total`, printed as
`d.d`.  This is the ideal the program is compared against; the program
itself rounds the binary64 double (`pctDouble` above), and the two
disagree whenever the double lands on the other side of a tie. -/
def pctExactFixed1 (d total : Nat) : String :=
  let n := (2 * (d * 1000) + total) / (2 * total)
  toString (n / 10) ++ "." ++ toString (n % 10)

/-- `summarize` (src/app.js:123-137): two `reduce` passes counting the
active and done tasks, then the percentage computed in binary64. -/
def summarize (tasks : List Task) : Summary :=
  let active := tasks.foldl (fun count task => if task.done then count else count + 1) 0
  let d := tasks.foldl (fun count task => if task.done then count + 1 else count) 0
  let total := active + d
  let pct := if total = 0 then PctVal.num 0 else PctVal.str (pctDouble d total)
  ⟨active, d, pct⟩

/-!
### A reference model for `list()`

`list()` (src/app.js:87-90) returns `tasks.map(task => (` a spread copy
of `task ))`: a fresh array whose elements are fresh objects.  In the
pure embedding above this is invisible (values are values), so object
identity is modelled explicitly here: a heap of task objects addressed
by allocation index, the store's private array as a list of addresses,
and `list()` as the operation that reads each address and allocates a
fresh copy, returning the fresh addresses. -/

/-- A heap of task objects; the address of an object is its index, and
allocation appends. -/
structure Heap where
  objs : List Task
deriving DecidableEq, Repr

/-- Number of allocated objects; every valid address is below it. -/
def Heap.size (h : Heap) : Nat := h.objs.length

/-- Read the object at an address. -/
def Heap.read (h : Heap) (a : Nat) : Task :=
  (h.objs.get? a).getD ⟨"", "", false⟩

/-- Overwrite the object at an address (a mutation of that object). -/
def Heap.write (h : Heap) (a : Nat) (t : Task) : Heap :=
  ⟨h.objs.set a t⟩

/-- Allocate a fresh object, returning the new heap and its address. -/
def Heap.alloc (h : Heap) (t : Task) : Heap × Nat :=
  (⟨h.objs ++ [t]⟩, h.objs.length)

/-- `list()` on the heap model: for each address of the private array,
allocate a spread copy of the object it points to; the returned array
holds the fresh addresses. -/
def listClone (h : Heap) (addrs : List Nat) : Heap × List Nat :=
  match addrs with
  | [] => (h, [])
  | a :: rest =>
    let p1 := h.alloc (h.read a)
    let p2 := listClone p1.1 rest
    (p2.1, p1.2 :: p2.2)

end FocusTasks




/-!
## Helper lemmas and the claim theorems
-/

namespace FocusTasks

theorem toggleTask_id (i : String) (t : Task) : (toggleTask i t).id = t.id := by
  unfold toggleTask; split <;> rfl

theorem toggleTask_toggleTask (i : String) (t : Task) :
    toggleTask i (toggleTask i t) = t := by
  cases t with
  | mk tid ttl td =>
    unfold toggleTask
    by_cases h : tid = i <;> simp [h]

theorem toggle_get? (tasks : List Task) (i : String) (k : Nat) :
    (toggle tasks i).get? k = (tasks.get? k).map (toggleTask i) := by
  simp [toggle, List.get?_map]

theorem toggle_noop_of_absent (tasks : List Task) (i : String)
    (h : ∀ t ∈ tasks, t.id ≠ i) : toggle tasks i = tasks := by
  unfold toggle
  have hcongr : tasks.map (toggleTask i) = tasks.map id :=
    List.map_congr_left (fun t ht => by unfold toggleTask; rw [if_neg (h t ht)]; rfl)
  simpa using hcongr

theorem remove_mem_iff (u : Task) (tasks : List Task) (i : String) :
    u ∈ remove tasks i ↔ u ∈ tasks ∧ u.id ≠ i := by
  simp [remove, List.mem_filter]

/-- Claim C5: for every list, `toggle(id)` preserves length and order,
flips exactly the `done` field of the tasks whose `id` matches (their
`id` and `title` are unchanged) and leaves every other task unchanged;
toggling twice restores the original list; if the id does not occur the
call is a no-op. -/
theorem toggle_flips_exactly (tasks : List Task) (i : String) :
    (toggle tasks i).length = tasks.length
    ∧ (∀ k t, tasks.get? k = some t →
        (toggle tasks i).get? k =
          some (if t.id = i then Task.mk t.id t.title (!t.done) else t))
    ∧ toggle (toggle tasks i) i = tasks
    ∧ ((∀ t ∈ tasks, t.id ≠ i) → toggle tasks i = tasks) := by
  refine ⟨by simp [toggle], ?_, ?_, toggle_noop_of_absent tasks i⟩
  · intro k t ht
    rw [toggle_get?, ht]
    cases t with
    | mk tid ttl td =>
      unfold toggleTask
      by_cases h : tid = i <;> simp [h]
  · unfold toggle
    rw [List.map_map]
    have hcongr : tasks.map (toggleTask i ∘ toggleTask i) = tasks.map id :=
      List.map_congr_left (fun t _ => toggleTask_toggleTask i t)
    simpa using hcongr

/-- Witness for C5 at a concrete two-task list. -/
theorem toggle_flips_exactly_witness :
    (toggle [⟨"a", "x", false⟩, ⟨"b", "y", true⟩] "a").length
        = ([⟨"a", "x", false⟩, ⟨"b", "y", true⟩] : List Task).length
    ∧ (∀ k t, ([⟨"a", "x", false⟩, ⟨"b", "y", true⟩] : List Task).get? k = some t →
        (toggle [⟨"a", "x", false⟩, ⟨"b", "y", true⟩] "a").get? k =
          some (if t.id = "a" then Task.mk t.id t.title (!t.done) else t))
    ∧ toggle (toggle [⟨"a", "x", false⟩, ⟨"b", "y", true⟩] "a") "a"
        = [⟨"a", "x", false⟩, ⟨"b", "y", true⟩]
    ∧ ((∀ t ∈ ([⟨"a", "x", false⟩, ⟨"b", "y", true⟩] : List Task), t.id ≠ "a") →
        toggle [⟨"a", "x", false⟩, ⟨"b", "y", true⟩] "a"
          = [⟨"a", "x", false⟩, ⟨"b", "y", true⟩]) :=
  toggle_flips_exactly [⟨"a", "x", false⟩, ⟨"b", "y", true⟩] "a"

/-- Claim C10: when several tasks share an id, `toggle(id)` flips the
`done` field of every one of them, and a single `remove(id)` call
deletes every one of them. -/
theorem duplicate_ids_all_affected (tasks : List Task) (i : String) :
    (∀ k t, tasks.get? k = some t → t.id = i →
        (toggle tasks i).get? k = some (Task.mk t.id t.title (!t.done)))
    ∧ (∀ u ∈ remove tasks i, u.id ≠ i)
    ∧ (∀ u ∈ tasks, u.id ≠ i → u ∈ remove tasks i) := by
  refine ⟨?_, ?_, ?_⟩
  · intro k t ht hid
    rw [toggle_get?, ht]
    cases t with
    | mk tid ttl td =>
      unfold toggleTask
      simp only [Option.map_some']
      rw [if_pos hid]
  · intro u hu
    exact ((remove_mem_iff u tasks i).1 hu).2
  · intro u hu hne
    exact (remove_mem_iff u tasks i).2 ⟨hu, hne⟩

/-- Witness for C10 at a list with a duplicated id: both copies are
flipped by one `toggle` and both are deleted by one `remove`. -/
theorem duplicate_ids_all_affected_witness :
    (toggle [⟨"a", "x", false⟩, ⟨"a", "y", true⟩] "a"
        = [⟨"a", "x", true⟩, ⟨"a", "y", false⟩])
    ∧ (remove [⟨"a", "x", false⟩, ⟨"a", "y", true⟩] "a" = [])
    ∧ ((∀ k t, ([⟨"a", "x", false⟩, ⟨"a", "y", true⟩] : List Task).get? k = some t →
          t.id = "a" →
          (toggle [⟨"a", "x", false⟩, ⟨"a", "y", true⟩] "a").get? k =
            some (Task.mk t.id t.title (!t.done)))
        ∧ (∀ u ∈ remove [⟨"a", "x", false⟩, ⟨"a", "y", true⟩] "a", u.id ≠ "a")
        ∧ (∀ u ∈ ([⟨"a", "x", false⟩, ⟨"a", "y", true⟩] : List Task), u.id ≠ "a" →
            u ∈ remove [⟨"a", "x", false⟩, ⟨"a", "y", true⟩] "a")) :=
  ⟨by decide, by decide, duplicate_ids_all_affected [⟨"a", "x", false⟩, ⟨"a", "y", true⟩] "a"⟩

end FocusTasks

namespace FocusTasks

theorem remove_noop_of_absent (tasks : List Task) (i : String)
    (h : ∀ u ∈ tasks, u.id ≠ i) : remove tasks i = tasks := by
  unfold remove
  apply List.filter_eq_self.mpr
  intro a ha
  simpa using h a ha

theorem remove_length_of_mem (i : String) :
    ∀ tasks : List Task, (tasks.map Task.id).Nodup →
      (∃ t ∈ tasks, t.id = i) → (remove tasks i).length + 1 = tasks.length := by
  intro tasks
  induction tasks with
  | nil =>
    rintro _ ⟨t, ht, -⟩
    cases ht
  | cons u rest ih =>
    intro hnd hex
    simp only [List.map_cons, List.nodup_cons] at hnd
    obtain ⟨hu, hrest⟩ := hnd
    by_cases h : u.id = i
    · have hall : ∀ v ∈ rest, v.id ≠ i := by
        intro v hv hvi
        exact hu (List.mem_map.mpr ⟨v, hv, hvi.trans h.symm⟩)
      have hrem : remove rest i = rest := remove_noop_of_absent rest i hall
      have hdrop : remove (u :: rest) i = remove rest i := by
        simp [remove, List.filter_cons, h]
      rw [hdrop, hrem]
      simp
    · obtain ⟨t, ht, hti⟩ := hex
      have ht' : t ∈ rest := by
        rcases List.mem_cons.mp ht with h1 | h1
        · exact absurd (h1 ▸ hti) h
        · exact h1
      have hlen := ih hrest ⟨t, ht', hti⟩
      have hkeep : remove (u :: rest) i = u :: remove rest i := by
        simp [remove, List.filter_cons, h]
      rw [hkeep, List.length_cons, List.length_cons]
      omega

/-- Claim C6: on a list whose ids are unique (the data-model invariant),
`remove(id)` of a present id shortens the list by exactly one and the
result no longer contains that id; the result is a sublist of the
original (all other tasks unchanged, in the same relative order) and
contains every task whose id differs; removing an absent id is a no-op. -/
theorem remove_removes_matching (tasks : List Task) (i : String)
    (hnd : (tasks.map Task.id).Nodup) :
    ((∃ t ∈ tasks, t.id = i) → (remove tasks i).length + 1 = tasks.length)
    ∧ (∀ u ∈ remove tasks i, u.id ≠ i)
    ∧ (remove tasks i).Sublist tasks
    ∧ (∀ u ∈ tasks, u.id ≠ i → u ∈ remove tasks i)
    ∧ ((∀ u ∈ tasks, u.id ≠ i) → remove tasks i = tasks) :=
  ⟨remove_length_of_mem i tasks hnd,
   fun u hu => ((remove_mem_iff u tasks i).1 hu).2,
   List.filter_sublist tasks,
   fun u hu h => (remove_mem_iff u tasks i).2 ⟨hu, h⟩,
   remove_noop_of_absent tasks i⟩

/-- Witness for C6 at a concrete two-task list with unique ids. -/
theorem remove_removes_matching_witness :
    (([⟨"a", "x", false⟩, ⟨"b", "y", true⟩] : List Task).map Task.id).Nodup
    ∧ (((∃ t ∈ ([⟨"a", "x", false⟩, ⟨"b", "y", true⟩] : List Task), t.id = "a") →
          (remove [⟨"a", "x", false⟩, ⟨"b", "y", true⟩] "a").length + 1
            = ([⟨"a", "x", false⟩, ⟨"b", "y", true⟩] : List Task).length)
        ∧ (∀ u ∈ remove [⟨"a", "x", false⟩, ⟨"b", "y", true⟩] "a", u.id ≠ "a")
        ∧ (remove [⟨"a", "x", false⟩, ⟨"b", "y", true⟩] "a").Sublist
            [⟨"a", "x", false⟩, ⟨"b", "y", true⟩]
        ∧ (∀ u ∈ ([⟨"a", "x", false⟩, ⟨"b", "y", true⟩] : List Task), u.id ≠ "a" →
            u ∈ remove [⟨"a", "x", false⟩, ⟨"b", "y", true⟩] "a")
        ∧ ((∀ u ∈ ([⟨"a", "x", false⟩, ⟨"b", "y", true⟩] : List Task), u.id ≠ "a") →
            remove [⟨"a", "x", false⟩, ⟨"b", "y", true⟩] "a"
              = [⟨"a", "x", false⟩, ⟨"b", "y", true⟩])) :=
  ⟨by decide, remove_removes_matching [⟨"a", "x", false⟩, ⟨"b", "y", true⟩] "a" (by decide)⟩

/-- Claim C3: for a title that is non-empty after trimming (and a `done`
field that is absent or `false`), `add` appends exactly one task — with
the trimmed title and `done = false` — to the end of the list, leaves
every previously present task unchanged in place, and grows the length
by exactly one. -/
theorem add_appends_valid (tasks : List Task) (i ttl : String) (d : Option Bool)
    (hvalid : jsTrim ttl ≠ "") (hd : d.getD false = false) :
    add tasks ⟨i, some ttl, d⟩ = Except.ok (tasks ++ [⟨i, jsTrim ttl, false⟩])
    ∧ applyOp tasks (Op.add ⟨i, some ttl, d⟩) = tasks ++ [⟨i, jsTrim ttl, false⟩]
    ∧ (applyOp tasks (Op.add ⟨i, some ttl, d⟩)).length = tasks.length + 1
    ∧ (∀ k, k < tasks.length →
        (applyOp tasks (Op.add ⟨i, some ttl, d⟩)).get? k = tasks.get? k) := by
  have h1 : add tasks ⟨i, some ttl, d⟩ = Except.ok (tasks ++ [⟨i, jsTrim ttl, false⟩]) := by
    show (if jsTrim ttl = "" then Except.error "Task title cannot be empty"
          else Except.ok (tasks ++ [⟨i, jsTrim ttl, d.getD false⟩]))
        = Except.ok (tasks ++ [⟨i, jsTrim ttl, false⟩])
    rw [if_neg hvalid, hd]
  have h2 : applyOp tasks (Op.add ⟨i, some ttl, d⟩) = tasks ++ [⟨i, jsTrim ttl, false⟩] := by
    show (match add tasks ⟨i, some ttl, d⟩ with
          | Except.ok ts => ts
          | Except.error _ => tasks) = tasks ++ [⟨i, jsTrim ttl, false⟩]
    rw [h1]
  refine ⟨h1, h2, ?_, ?_⟩
  · rw [h2]; simp
  · intro k hk
    rw [h2]
    exact List.get?_append hk

/-- Witness for C3: adding a padded title to a one-task store. -/
theorem add_appends_valid_witness :
    jsTrim "  Buy milk  " ≠ ""
    ∧ (none : Option Bool).getD false = false
    ∧ (add [⟨"a", "x", true⟩] ⟨"t1", some "  Buy milk  ", none⟩
          = Except.ok ([⟨"a", "x", true⟩] ++ [⟨"t1", jsTrim "  Buy milk  ", false⟩])
        ∧ applyOp [⟨"a", "x", true⟩] (Op.add ⟨"t1", some "  Buy milk  ", none⟩)
            = [⟨"a", "x", true⟩] ++ [⟨"t1", jsTrim "  Buy milk  ", false⟩]
        ∧ (applyOp [⟨"a", "x", true⟩] (Op.add ⟨"t1", some "  Buy milk  ", none⟩)).length
            = ([⟨"a", "x", true⟩] : List Task).length + 1
        ∧ (∀ k, k < ([⟨"a", "x", true⟩] : List Task).length →
            (applyOp [⟨"a", "x", true⟩] (Op.add ⟨"t1", some "  Buy milk  ", none⟩)).get? k
              = ([⟨"a", "x", true⟩] : List Task).get? k)) :=
  ⟨by decide, rfl,
   add_appends_valid [⟨"a", "x", true⟩] "t1" "  Buy milk  " none (by decide) rfl⟩

/-- Claim C4: `add` with an absent, empty, or all-whitespace title
throws the validation error and leaves the store's list unchanged. -/
theorem add_invalid_rejected (tasks : List Task) (inp : AddInput)
    (h : inp.title = none ∨ ∃ s, inp.title = some s ∧ jsTrim s = "") :
    add tasks inp = Except.error "Task title cannot be empty"
    ∧ applyOp tasks (Op.add inp) = tasks := by
  have h1 : add tasks inp = Except.error "Task title cannot be empty" := by
    rcases h with h | ⟨s, hs, hts⟩
    · unfold add
      rw [h]
    · unfold add
      rw [hs]
      show (if jsTrim s = "" then Except.error "Task title cannot be empty"
            else Except.ok (tasks ++ [⟨inp.id, jsTrim s, inp.done.getD false⟩]))
          = Except.error "Task title cannot be empty"
      rw [if_pos hts]
  refine ⟨h1, ?_⟩
  show (match add tasks inp with
        | Except.ok ts => ts
        | Except.error _ => tasks) = tasks
  rw [h1]

/-- Witness for C4: a whitespace-only title against a one-task store. -/
theorem add_invalid_rejected_witness :
    ((⟨"b", some "   ", none⟩ : AddInput).title = none
      ∨ ∃ s, (⟨"b", some "   ", none⟩ : AddInput).title = some s ∧ jsTrim s = "")
    ∧ (add [⟨"a", "x", false⟩] ⟨"b", some "   ", none⟩
          = Except.error "Task title cannot be empty"
        ∧ applyOp [⟨"a", "x", false⟩] (Op.add ⟨"b", some "   ", none⟩)
            = [⟨"a", "x", false⟩]) :=
  ⟨Or.inr ⟨"   ", rfl, by decide⟩,
   add_invalid_rejected [⟨"a", "x", false⟩] ⟨"b", some "   ", none⟩
     (Or.inr ⟨"   ", rfl, by decide⟩)⟩

end FocusTasks

namespace FocusTasks

theorem add_ok_shape (tasks : List Task) (inp : AddInput) (ts : List Task)
    (h : add tasks inp = Except.ok ts) :
    ∃ s, inp.title = some s
      ∧ ts = tasks ++ [⟨inp.id, jsTrim s, inp.done.getD false⟩] := by
  cases htitle : inp.title with
  | none =>
    simp only [add, htitle] at h
    exact Except.noConfusion h
  | some s =>
    simp only [add, htitle] at h
    by_cases hts : jsTrim s = ""
    · rw [if_pos hts] at h
      exact Except.noConfusion h
    · rw [if_neg hts] at h
      injection h with h2
      exact ⟨s, rfl, h2.symm⟩

theorem toggle_map_id (tasks : List Task) (i : String) :
    (toggle tasks i).map Task.id = tasks.map Task.id := by
  unfold toggle
  rw [List.map_map]
  exact List.map_congr_left (fun t _ => toggleTask_id i t)

/-- Counterexample to claim C9 as stated: `add` never checks the
caller-supplied id against the list, so adding the same id twice from
the empty store produces two tasks with the same id. -/
theorem ids_not_unique_counterexample :
    ¬ ((applyOps [] [Op.add ⟨"a", some "x", none⟩, Op.add ⟨"a", some "y", none⟩]).map
        Task.id).Nodup := by decide

/-- Claim C9 as amended: every public operation preserves id-uniqueness
provided an `add` supplies an id not already present; `toggle` and
`remove` preserve it unconditionally. -/
theorem ids_unique_preserved (tasks : List Task) (op : Op)
    (hnd : (tasks.map Task.id).Nodup) (hfresh : addFresh tasks op = true) :
    ((applyOp tasks op).map Task.id).Nodup := by
  cases op with
  | add inp =>
    have hf : ∀ t ∈ tasks, t.id ≠ inp.id := by
      simpa [addFresh, List.all_eq_true] using hfresh
    show ((match add tasks inp with
          | Except.ok ts => ts
          | Except.error _ => tasks).map Task.id).Nodup
    cases hadd : add tasks inp with
    | error e => exact hnd
    | ok ts =>
      obtain ⟨s, hsome, hts⟩ := add_ok_shape tasks inp ts hadd
      subst hts
      simp only [List.map_append, List.map_cons, List.map_nil]
      refine List.Nodup.append hnd (List.nodup_singleton _) ?_
      intro a ha hb
      rw [List.mem_singleton] at hb
      obtain ⟨t, ht, rfl⟩ := List.mem_map.mp ha
      exact hf t ht hb
  | toggle i =>
    show ((toggle tasks i).map Task.id).Nodup
    rw [toggle_map_id]
    exact hnd
  | remove i =>
    show ((remove tasks i).map Task.id).Nodup
    exact List.Nodup.sublist ((List.filter_sublist tasks).map Task.id) hnd

/-- Witness for the amended C9: a fresh-id add to a one-task store. -/
theorem ids_unique_preserved_witness :
    (([⟨"a", "x", false⟩] : List Task).map Task.id).Nodup
    ∧ addFresh [⟨"a", "x", false⟩] (Op.add ⟨"b", some "y", none⟩) = true
    ∧ ((applyOp [⟨"a", "x", false⟩] (Op.add ⟨"b", some "y", none⟩)).map Task.id).Nodup :=
  ⟨by decide, by decide,
   ids_unique_preserved [⟨"a", "x", false⟩] (Op.add ⟨"b", some "y", none⟩)
     (by decide) (by decide)⟩

theorem foldl_active_count (l : List Task) :
    ∀ n : Nat, l.foldl (fun count task => if task.done then count else count + 1) n
      = n + (l.filter fun t => !t.done).length := by
  induction l with
  | nil => intro n; simp
  | cons t rest ih =>
    intro n
    cases ht : t.done <;> simp [List.foldl_cons, List.filter_cons, ht, ih] <;> try omega

theorem foldl_done_count (l : List Task) :
    ∀ n : Nat, l.foldl (fun count task => if task.done then count + 1 else count) n
      = n + (l.filter fun t => t.done).length := by
  induction l with
  | nil => intro n; simp
  | cons t rest ih =>
    intro n
    cases ht : t.done <;> simp [List.foldl_cons, List.filter_cons, ht, ih] <;> try omega

theorem filter_done_split (l : List Task) :
    (l.filter fun t => !t.done).length + (l.filter fun t => t.done).length = l.length := by
  induction l with
  | nil => rfl
  | cons t rest ih =>
    cases ht : t.done <;> simp [List.filter_cons, ht, ih] <;> try omega

end FocusTasks

namespace FocusTasks

/-- Counterexample to claim C8 as stated: at 80 tasks of which 23 are
done, the exact percentage is 28.75, whose one-decimal rounding (the
claim's "rounded to one decimal", with the toFixed tie rule) is
"28.8"; but the program rounds the binary64 value of `(23/80)*100`,
which is `28.75 - 2^-48 < 28.75`, and prints "28.7". -/
theorem summarize_exact_rounding_counterexample :
    (summarize (List.replicate 23 (⟨"d", "t", true⟩ : Task)
        ++ List.replicate 57 (⟨"a", "t", false⟩ : Task))).done = 23
    ∧ (summarize (List.replicate 23 (⟨"d", "t", true⟩ : Task)
        ++ List.replicate 57 (⟨"a", "t", false⟩ : Task))).active = 57
    ∧ (summarize (List.replicate 23 (⟨"d", "t", true⟩ : Task)
        ++ List.replicate 57 (⟨"a", "t", false⟩ : Task))).pct = PctVal.str "28.7"
    ∧ pctExactFixed1 23 80 = "28.8"
    ∧ PctVal.str "28.7" ≠ PctVal.str "28.8" :=
  ⟨rfl, rfl, rfl, rfl, by decide⟩

/-- Claim C8 as amended: `summarize` is pure; `active` is the number of
tasks with `done == false`, `done` the number with `done == true`;
`pct` is the number `0` on the empty list and otherwise the string
`toFixed(1)` produces for the binary64 value `(done / total) * 100` —
which is the one-decimal rounding of `done / (active+done) × 100`
except when the double falls on the other side of a rounding tie, as
at 23 done of 80; the two quoted examples hold. -/
theorem summarize_spec_amended (tasks : List Task) :
    (summarize tasks).active = (tasks.filter fun t => !t.done).length
    ∧ (summarize tasks).done = (tasks.filter fun t => t.done).length
    ∧ (tasks = [] → (summarize tasks).pct = PctVal.num 0)
    ∧ (tasks ≠ [] → (summarize tasks).pct
        = PctVal.str (pctDouble (tasks.filter fun t => t.done).length tasks.length))
    ∧ summarize [] = ⟨0, 0, PctVal.num 0⟩
    ∧ summarize [⟨"a", "t1", true⟩, ⟨"b", "t2", true⟩, ⟨"c", "t3", false⟩]
        = ⟨1, 2, PctVal.str "66.7"⟩ := by
  have hA : tasks.foldl (fun count task => if task.done then count else count + 1) 0
      = (tasks.filter fun t => !t.done).length := by
    rw [foldl_active_count tasks 0]
    exact Nat.zero_add _
  have hD : tasks.foldl (fun count task => if task.done then count + 1 else count) 0
      = (tasks.filter fun t => t.done).length := by
    rw [foldl_done_count tasks 0]
    exact Nat.zero_add _
  have hT := filter_done_split tasks
  refine ⟨hA, hD, ?_, ?_, rfl, by decide⟩
  · intro h
    subst h
    rfl
  · intro h
    simp only [summarize]
    rw [hA, hD, hT]
    rw [if_neg (fun hh => h (List.length_eq_zero.mp hh))]

/-- Witness for the amended C8 at the quoted three-task example. -/
theorem summarize_spec_amended_witness :
    (summarize [⟨"a", "t1", true⟩, ⟨"b", "t2", true⟩, ⟨"c", "t3", false⟩]).active
        = (([⟨"a", "t1", true⟩, ⟨"b", "t2", true⟩, ⟨"c", "t3", false⟩] : List Task).filter
            fun t => !t.done).length
    ∧ (summarize [⟨"a", "t1", true⟩, ⟨"b", "t2", true⟩, ⟨"c", "t3", false⟩]).done
        = (([⟨"a", "t1", true⟩, ⟨"b", "t2", true⟩, ⟨"c", "t3", false⟩] : List Task).filter
            fun t => t.done).length
    ∧ (([⟨"a", "t1", true⟩, ⟨"b", "t2", true⟩, ⟨"c", "t3", false⟩] : List Task) = [] →
        (summarize [⟨"a", "t1", true⟩, ⟨"b", "t2", true⟩, ⟨"c", "t3", false⟩]).pct
          = PctVal.num 0)
    ∧ (([⟨"a", "t1", true⟩, ⟨"b", "t2", true⟩, ⟨"c", "t3", false⟩] : List Task) ≠ [] →
        (summarize [⟨"a", "t1", true⟩, ⟨"b", "t2", true⟩, ⟨"c", "t3", false⟩]).pct
          = PctVal.str (pctDouble
              ((([⟨"a", "t1", true⟩, ⟨"b", "t2", true⟩, ⟨"c", "t3", false⟩] : List Task).filter
                  fun t => t.done).length)
              ([⟨"a", "t1", true⟩, ⟨"b", "t2", true⟩, ⟨"c", "t3", false⟩] : List Task).length))
    ∧ summarize [] = ⟨0, 0, PctVal.num 0⟩
    ∧ summarize [⟨"a", "t1", true⟩, ⟨"b", "t2", true⟩, ⟨"c", "t3", false⟩]
        = ⟨1, 2, PctVal.str "66.7"⟩ :=
  summarize_spec_amended [⟨"a", "t1", true⟩, ⟨"b", "t2", true⟩, ⟨"c", "t3", false⟩]

theorem read_extend (h : Heap) (l : List Task) (b : Nat) (hb : b < h.size) :
    Heap.read ⟨h.objs ++ l⟩ b = h.read b := by
  unfold Heap.read
  rw [List.get?_append hb]

theorem read_write_ne (h : Heap) (a b : Nat) (t : Task) (hne : a ≠ b) :
    (h.write a t).read b = h.read b := by
  unfold Heap.write Heap.read
  rw [List.get?_set_ne t h.objs hne]

theorem write_size (h : Heap) (a : Nat) (t : Task) : (h.write a t).size = h.size := by
  unfold Heap.write Heap.size
  exact List.length_set h.objs a t

theorem listClone_spec : ∀ (addrs : List Nat) (h : Heap),
    (∀ b ∈ addrs, b < h.size) →
    ((listClone h addrs).1.objs = h.objs ++ addrs.map h.read
      ∧ (∀ r ∈ (listClone h addrs).2, h.size ≤ r)
      ∧ (listClone h addrs).2.map (listClone h addrs).1.read = addrs.map h.read) := by
  intro addrs
  induction addrs with
  | nil =>
    intro h _
    refine ⟨by simp [listClone], ?_, by simp [listClone]⟩
    intro r hr
    simp [listClone] at hr
  | cons a rest ih =>
    intro h hv
    have ha : a < h.size := hv a (List.mem_cons_self a rest)
    have hv1 : ∀ b ∈ rest, b < (Heap.mk (h.objs ++ [h.read a])).size := by
      intro b hb
      have hbs : b < h.size := hv b (List.mem_cons_of_mem a hb)
      have hgrow : h.size ≤ (Heap.mk (h.objs ++ [h.read a])).size := by
        unfold Heap.size
        simp
      exact lt_of_lt_of_le hbs hgrow
    obtain ⟨ih1, ih2, ih3⟩ := ih (Heap.mk (h.objs ++ [h.read a])) hv1
    have hread1 : ∀ b ∈ rest, (Heap.mk (h.objs ++ [h.read a])).read b = h.read b := by
      intro b hb
      exact read_extend h [h.read a] b (hv b (List.mem_cons_of_mem a hb))
    have hstep : listClone h (a :: rest)
        = ((listClone (Heap.mk (h.objs ++ [h.read a])) rest).1,
           h.objs.length :: (listClone (Heap.mk (h.objs ++ [h.read a])) rest).2) := rfl
    rw [hstep]
    refine ⟨?_, ?_, ?_⟩
    · show (listClone (Heap.mk (h.objs ++ [h.read a])) rest).1.objs
        = h.objs ++ (a :: rest).map h.read
      rw [ih1, List.map_congr_left hread1]
      simp
    · intro r hr
      rcases List.mem_cons.mp hr with rfl | hr2
      · exact Nat.le_refl _
      · have hge := ih2 r hr2
        have hgrow : h.size ≤ (Heap.mk (h.objs ++ [h.read a])).size := by
          unfold Heap.size
          simp
        exact le_trans hgrow hge
    · rw [List.map_cons, List.map_cons]
      congr 1
      · have hlt : h.objs.length < (Heap.mk (h.objs ++ [h.read a])).size := by
          unfold Heap.size
          simp
        have hr1 : (listClone (Heap.mk (h.objs ++ [h.read a])) rest).1.read h.objs.length
            = (Heap.mk (h.objs ++ [h.read a])).read h.objs.length := by
          show ((listClone (Heap.mk (h.objs ++ [h.read a])) rest).1.objs.get?
              h.objs.length).getD ⟨"", "", false⟩
            = (Heap.mk (h.objs ++ [h.read a])).read h.objs.length
          rw [ih1, List.get?_append hlt]
          rfl
        rw [hr1]
        show ((h.objs ++ [h.read a]).get? h.objs.length).getD ⟨"", "", false⟩ = h.read a
        rw [List.get?_append_right (Nat.le_refl _)]
        simp
      · rw [ih3]
        exact List.map_congr_left hread1

theorem listClone_preserves_read (h : Heap) (addrs : List Nat)
    (hv : ∀ b ∈ addrs, b < h.size) (b : Nat) (hb : b < h.size) :
    (listClone h addrs).1.read b = h.read b := by
  obtain ⟨h1, -, -⟩ := listClone_spec addrs h hv
  unfold Heap.read
  rw [h1, List.get?_append hb]

theorem listClone_size (h : Heap) (addrs : List Nat)
    (hv : ∀ b ∈ addrs, b < h.size) :
    (listClone h addrs).1.size = h.size + addrs.length := by
  obtain ⟨h1, -, -⟩ := listClone_spec addrs h hv
  show (listClone h addrs).1.objs.length = h.objs.length + addrs.length
  rw [h1]
  simp

end FocusTasks

namespace FocusTasks

/-- Claim C7: `list()` returns a deep copy in order: the returned
references carry exactly the store's tasks in insertion order, none of
them is an internal reference, and writing anything through a returned
reference changes neither any internal task nor the contents a later
`list()` returns. -/
theorem list_returns_deep_copy (h : Heap) (addrs : List Nat)
    (hv : ∀ b ∈ addrs, b < h.size) :
    (listClone h addrs).2.map (listClone h addrs).1.read = addrs.map h.read
    ∧ (∀ r ∈ (listClone h addrs).2, r ∉ addrs)
    ∧ (∀ r ∈ (listClone h addrs).2, ∀ u : Task, ∀ b ∈ addrs,
        ((listClone h addrs).1.write r u).read b = h.read b)
    ∧ (∀ r ∈ (listClone h addrs).2, ∀ u : Task,
        (listClone ((listClone h addrs).1.write r u) addrs).2.map
          (listClone ((listClone h addrs).1.write r u) addrs).1.read
        = addrs.map h.read) := by
  obtain ⟨h1, h2, h3⟩ := listClone_spec addrs h hv
  have hwr : ∀ r ∈ (listClone h addrs).2, ∀ u : Task, ∀ b ∈ addrs,
      ((listClone h addrs).1.write r u).read b = h.read b := by
    intro r hr u b hb
    have hblt : b < h.size := hv b hb
    have hne : r ≠ b := ne_of_gt (lt_of_lt_of_le hblt (h2 r hr))
    rw [read_write_ne _ _ _ _ hne]
    exact listClone_preserves_read h addrs hv b hblt
  refine ⟨h3, ?_, hwr, ?_⟩
  · intro r hr hmem
    exact absurd (hv r hmem) (Nat.not_lt.mpr (h2 r hr))
  · intro r hr u
    have hv2 : ∀ b ∈ addrs, b < ((listClone h addrs).1.write r u).size := by
      intro b hb
      rw [write_size, listClone_size h addrs hv]
      exact lt_of_lt_of_le (hv b hb) (Nat.le_add_right _ _)
    obtain ⟨-, -, g3⟩ := listClone_spec addrs _ hv2
    rw [g3]
    exact List.map_congr_left (fun b hb => hwr r hr u b hb)

/-- Witness for C7 on a one-object heap. -/
theorem list_returns_deep_copy_witness :
    (∀ b ∈ ([0] : List Nat), b < (Heap.mk [⟨"a", "x", false⟩]).size)
    ∧ ((listClone (Heap.mk [⟨"a", "x", false⟩]) [0]).2.map
          (listClone (Heap.mk [⟨"a", "x", false⟩]) [0]).1.read
        = ([0] : List Nat).map (Heap.mk [⟨"a", "x", false⟩]).read
      ∧ (∀ r ∈ (listClone (Heap.mk [⟨"a", "x", false⟩]) [0]).2, r ∉ ([0] : List Nat))
      ∧ (∀ r ∈ (listClone (Heap.mk [⟨"a", "x", false⟩]) [0]).2, ∀ u : Task,
          ∀ b ∈ ([0] : List Nat),
          ((listClone (Heap.mk [⟨"a", "x", false⟩]) [0]).1.write r u).read b
            = (Heap.mk [⟨"a", "x", false⟩]).read b)
      ∧ (∀ r ∈ (listClone (Heap.mk [⟨"a", "x", false⟩]) [0]).2, ∀ u : Task,
          (listClone ((listClone (Heap.mk [⟨"a", "x", false⟩]) [0]).1.write r u) [0]).2.map
            (listClone ((listClone (Heap.mk [⟨"a", "x", false⟩]) [0]).1.write r u) [0]).1.read
          = ([0] : List Nat).map (Heap.mk [⟨"a", "x", false⟩]).read)) :=
  ⟨by decide, list_returns_deep_copy (Heap.mk [⟨"a", "x", false⟩]) [0] (by decide)⟩

/-- Claim C1 is refuted by the code as written (code bug): the task list
`[⟨"t1", "Buy milk", false⟩]` is reachable by one `add` from the empty
store and `persist` writes its serialization under the key, but a store
constructed over that stored value has the empty task list, because the
inner `init` of src/app.js:24-34 is never invoked.  The last two
conjuncts show the intent was achievable: the stored string parses back
to exactly the persisted list, so the `init` function, had it run,
would have restored it. -/
theorem roundtrip_loses_state :
    applyOp [] (Op.add ⟨"t1", some "Buy milk", none⟩) = [⟨"t1", "Buy milk", false⟩]
    ∧ createStoreTasks (some (persistValue [⟨"t1", "Buy milk", false⟩])) = Except.ok []
    ∧ ([] : List Task) ≠ [⟨"t1", "Buy milk", false⟩]
    ∧ parseTasks (persistValue [⟨"t1", "Buy milk", false⟩])
        = some [⟨"t1", "Buy milk", false⟩]
    ∧ hydrate [] (some (persistValue [⟨"t1", "Buy milk", false⟩]))
        = [⟨"t1", "Buy milk", false⟩] :=
  ⟨by decide, rfl, by decide, rfl, rfl⟩

/-- Claim C2: construction of a store never fails whatever the stored
value, and the hydration logic yields the empty list when the stored
value is absent, empty, or unparseable. -/
theorem construction_never_fails (stored : Option String) (s : String)
    (hbad : parseTasks s = none) :
    createStoreTasks stored = Except.ok []
    ∧ hydrate [] none = []
    ∧ hydrate [] (some "") = []
    ∧ hydrate [] (some s) = [] := by
  refine ⟨rfl, rfl, rfl, ?_⟩
  simp only [hydrate]
  by_cases hs : s = ""
  · rw [if_pos hs]
  · rw [if_neg hs, hbad]

/-- Witness for C2 with an unparseable stored value. -/
theorem construction_never_fails_witness :
    parseTasks "garbage" = none
    ∧ (createStoreTasks none = Except.ok []
      ∧ hydrate [] none = []
      ∧ hydrate [] (some "") = []
      ∧ hydrate [] (some "garbage") = []) :=
  ⟨rfl, construction_never_fails none "garbage" rfl⟩

end FocusTasks
